import Mathlib

/-!
Shallow embedding of `watchman/winbuild/susres.cpp`, a utility that
suspends, resumes, or reports the suspend status of all threads of a
target process.

The OS is modelled as an explicit state: the set of live threads (each
with an owner pid and a suspend count), the set of existing processes,
and flags/sets describing which OS calls fail.  Handles are counted so
that resource release can be stated.  Each C function becomes a state
transformer returning the new state, the exit code, the printed lines
(as an abstract inductive) and a trace of the OS-visible events it
performed.
-/

set_option linter.unusedVariables false

namespace Susres

/-- One OS thread: its identifier, its owning process identifier, and its
current suspend count (0 = running, ≥ 1 = suspended). -/
structure Thread where
  tid : Nat
  owner : Nat
  suspendCount : Nat
deriving DecidableEq, Repr

/-- A `THREADENTRY32` record as produced by a toolhelp snapshot. -/
structure ThreadEntry where
  th32ThreadID : Nat
  th32OwnerProcessID : Nat
deriving DecidableEq, Repr

/-- The OS state visible to the tool: live threads, existing processes,
which OS calls fail (external nondeterminism, fixed per run), and how
many handles are currently open (process + thread + snapshot handles). -/
structure OS where
  threads : List Thread
  procs : List Nat
  openThreadFails : List Nat
  suspendFails : List Nat
  resumeFails : List Nat
  snapshotFails : Bool
  getProcFails : Bool
  openHandles : Nat
deriving DecidableEq, Repr

/-- Well-formed OS state: thread identifiers are unique (the OS guarantees
this). -/
def OS.wf (st : OS) : Prop := (st.threads.map Thread.tid).Nodup

instance (st : OS) : Decidable st.wf := by unfold OS.wf; infer_instance

/-- No per-thread OS call fails: the nominal regime for the prober. -/
def OS.noFail (st : OS) : Prop :=
  st.openThreadFails = [] ∧ st.suspendFails = [] ∧ st.resumeFails = []

instance (st : OS) : Decidable st.noFail := by unfold OS.noFail; infer_instance

/-- A win32 `HANDLE` as far as `apply` needs it: `NULL`,
`INVALID_HANDLE_VALUE`, or a valid process handle. -/
inductive Handle where
  | hNull
  | hInvalid
  | hProc (pid : Nat)
deriving DecidableEq, Repr

/-- The lines the tool can print, abstracted from their formatted text.
Constructors carrying an OS error decode (`win32_strerror`) are the
error diagnostics. -/
inductive Line where
  | failedGetProcAddress (suspend : Bool)
  | failedOpenProcess (pid : Nat)
  | funcError (suspend : Bool) (pid : Nat) (res : Nat)
  | failedSnapshot
  | failedOpenThread (tid : Nat)
  | suspendThreadFailed (tid : Nat)
  | resumeThreadFailed (tid : Nat)
  | noThreadsFound (pid : Nat)
  | statusLine (allSuspended : Bool)
  | usageLine
deriving DecidableEq, Repr

/-- OS-visible events performed by an operation, in order. -/
inductive Event where
  | openedProcess (pid : Nat)
  | invokedFreeze (suspend : Bool)
  | openedThread (tid : Nat)
  | probed (tid : Nat) (prevCount : Nat)
  | resumed (tid : Nat)
deriving DecidableEq, Repr

/-- The thread identifier an event refers to, if any. -/
def eventTid : Event → Option Nat
  | Event.openedThread t => some t
  | Event.probed t _ => some t
  | Event.resumed t => some t
  | Event.openedProcess _ => none
  | Event.invokedFreeze _ => none

/-- `OpenProcess(PROCESS_ALL_ACCESS, FALSE, pid)`: returns a valid handle
if the process exists, `NULL` otherwise (the win32 contract: `OpenProcess`
returns `NULL` on failure, not `INVALID_HANDLE_VALUE`). -/
def openProcess (st : OS) (pid : Nat) : OS × Handle :=
  if st.procs.contains pid then
    ({ st with openHandles := st.openHandles + 1 }, Handle.hProc pid)
  else (st, Handle.hNull)

/-- `CloseHandle` on a process handle; on `NULL`/`INVALID_HANDLE_VALUE`
it releases nothing. -/
def closeHandle (st : OS) (h : Handle) : OS :=
  match h with
  | Handle.hProc _ => { st with openHandles := st.openHandles - 1 }
  | _ => st

/-- Per-thread effect of `NtSuspendProcess` on the target's threads:
increments the suspend count of threads owned by `pid`. -/
def freezeBump (pid : Nat) (t : Thread) : Thread :=
  if t.owner = pid then { t with suspendCount := t.suspendCount + 1 } else t

/-- Per-thread effect of `NtResumeProcess` on the target's threads:
decrements (floored at 0) the suspend count of threads owned by `pid`. -/
def freezeDrop (pid : Nat) (t : Thread) : Thread :=
  if t.owner = pid then { t with suspendCount := t.suspendCount - 1 } else t

/-- `NtSuspendProcess`: on a valid handle, increments the suspend count of
every thread owned by the process and returns 0; on an invalid handle it
returns `STATUS_INVALID_HANDLE`. -/
def ntSuspendProcess (st : OS) (h : Handle) : OS × Nat :=
  match h with
  | Handle.hProc pid => ({ st with threads := st.threads.map (freezeBump pid) }, 0)
  | _ => (st, 0xC0000008)

/-- `NtResumeProcess`: on a valid handle, decrements (floored at 0) the
suspend count of every thread owned by the process and returns 0. -/
def ntResumeProcess (st : OS) (h : Handle) : OS × Nat :=
  match h with
  | Handle.hProc pid => ({ st with threads := st.threads.map (freezeDrop pid) }, 0)
  | _ => (st, 0xC0000008)

/-- `int apply(DWORD pid, BOOL suspend)` from susres.cpp: resolve
`NtSuspendProcess`/`NtResumeProcess`, open the process, invoke the
primitive, close the handle.  Note the source checks the `OpenProcess`
result against `INVALID_HANDLE_VALUE`. -/
def apply (st : OS) (pid : Nat) (suspend : Bool) : OS × Nat × List Line × List Event :=
  if st.getProcFails then
    (st, 1, [Line.failedGetProcAddress suspend], [])
  else
    let p := openProcess st pid
    if p.2 = Handle.hInvalid then
      (p.1, 1, [Line.failedOpenProcess pid], [])
    else
      let openEvs : List Event :=
        match p.2 with
        | Handle.hProc q => [Event.openedProcess q]
        | _ => []
      let r := if suspend then ntSuspendProcess p.1 p.2 else ntResumeProcess p.1 p.2
      let lines : List Line := if r.2 = 0 then [] else [Line.funcError suspend pid r.2]
      (closeHandle r.1 p.2, if r.2 = 0 then 0 else 1, lines,
       openEvs ++ [Event.invokedFreeze suspend])

/-- First thread in the list with the given identifier (what a thread
handle refers to). -/
def findThread (l : List Thread) (tid : Nat) : Option Thread :=
  l.find? (fun t => t.tid == tid)

/-- Update the first thread with the given identifier, applying `f` to its
suspend count. -/
def updateThread : List Thread → Nat → (Nat → Nat) → List Thread
  | [], _, _ => []
  | t :: ts, tid, f =>
    if t.tid = tid then { t with suspendCount := f t.suspendCount } :: ts
    else t :: updateThread ts tid f

/-- Suspend count of the first thread with the given identifier. -/
def countOf (st : OS) (tid : Nat) : Option Nat :=
  (findThread st.threads tid).map Thread.suspendCount

/-- `OpenThread(THREAD_SUSPEND_RESUME, FALSE, tid)`: succeeds (acquiring a
handle) iff the thread exists and the call is not marked as failing. -/
def openThread (st : OS) (tid : Nat) : OS × Bool :=
  if (findThread st.threads tid).isSome && !(st.openThreadFails.contains tid) then
    ({ st with openHandles := st.openHandles + 1 }, true)
  else (st, false)

/-- `CloseHandle` on a thread handle. -/
def closeThreadHandle (st : OS) : OS := { st with openHandles := st.openHandles - 1 }

/-- `SuspendThread`: returns the previous suspend count and increments it;
`none` models the `(DWORD)-1` failure return (no count change). -/
def suspendThread (st : OS) (tid : Nat) : OS × Option Nat :=
  if st.suspendFails.contains tid then (st, none)
  else
    match findThread st.threads tid with
    | none => (st, none)
    | some t =>
      ({ st with threads := updateThread st.threads tid (fun c => c + 1) }, some t.suspendCount)

/-- `ResumeThread`: returns the previous suspend count and decrements it
(floored at 0); `none` models the `(DWORD)-1` failure return. -/
def resumeThread (st : OS) (tid : Nat) : OS × Option Nat :=
  if st.resumeFails.contains tid then (st, none)
  else
    match findThread st.threads tid with
    | none => (st, none)
    | some t =>
      ({ st with threads := updateThread st.threads tid (fun c => c - 1) }, some t.suspendCount)

/-- `CreateToolhelp32Snapshot(TH32CS_SNAPTHREAD, 0)`: a point-in-time copy
of every thread entry in the system, or `none` (= `INVALID_HANDLE_VALUE`)
on failure. -/
def createToolhelp32Snapshot (st : OS) : OS × Option (List ThreadEntry) :=
  if st.snapshotFails then (st, none)
  else ({ st with openHandles := st.openHandles + 1 },
        some (st.threads.map (fun t => ⟨t.tid, t.owner⟩)))

/-- `CloseHandle` on the snapshot handle. -/
def closeSnapshot (st : OS) : OS := { st with openHandles := st.openHandles - 1 }

/-- Outcome of the `while (haveThread)` loop in `status`: an early-return
error (the loop has already closed the snapshot on those paths), or normal
completion carrying `foundThread` and `allSuspended`. -/
inductive LoopResult where
  | err (l : Line)
  | done (foundThread : Bool) (allSuspended : Bool)
deriving DecidableEq, Repr

/-- The `while (haveThread)` loop of `status`, iterating the snapshot
entries: for each entry owned by `pid`, open the thread, suspend it
recording the previous count, resume it, and short-circuit with
`allSuspended = false` if the previous count was 0.  Error paths close the
thread handle (when open) and the snapshot before returning. -/
def statusLoop (pid : Nat) : OS → List ThreadEntry → Bool → OS × List Event × LoopResult
  | st, [], found => (st, [], LoopResult.done found true)
  | st, e :: rest, found =>
    if e.th32OwnerProcessID = pid then
      let o := openThread st e.th32ThreadID
      if o.2 then
        let s := suspendThread o.1 e.th32ThreadID
        match s.2 with
        | none =>
          (closeSnapshot (closeThreadHandle s.1), [Event.openedThread e.th32ThreadID],
           LoopResult.err (Line.suspendThreadFailed e.th32ThreadID))
        | some prev =>
          let r := resumeThread s.1 e.th32ThreadID
          match r.2 with
          | none =>
            (closeSnapshot (closeThreadHandle r.1),
             [Event.openedThread e.th32ThreadID, Event.probed e.th32ThreadID prev],
             LoopResult.err (Line.resumeThreadFailed e.th32ThreadID))
          | some _ =>
            if prev = 0 then
              (closeThreadHandle r.1,
               [Event.openedThread e.th32ThreadID, Event.probed e.th32ThreadID prev,
                Event.resumed e.th32ThreadID],
               LoopResult.done true false)
            else
              let k := statusLoop pid (closeThreadHandle r.1) rest true
              (k.1,
               Event.openedThread e.th32ThreadID :: Event.probed e.th32ThreadID prev ::
                 Event.resumed e.th32ThreadID :: k.2.1,
               k.2.2)
      else
        (closeSnapshot o.1, [], LoopResult.err (Line.failedOpenThread e.th32ThreadID))
    else
      statusLoop pid st rest found

/-- `int status(DWORD pid)` from susres.cpp: take a snapshot, run the
probing loop, close the snapshot, and report `T`/`R` or `NoThreadsFound`. -/
def status (st : OS) (pid : Nat) : OS × Nat × List Line × List Event :=
  let c := createToolhelp32Snapshot st
  match c.2 with
  | none => (c.1, 1, [Line.failedSnapshot], [])
  | some entries =>
    let k := statusLoop pid c.1 entries false
    match k.2.2 with
    | LoopResult.err l => (k.1, 1, [l], k.2.1)
    | LoopResult.done found allSusp =>
      let st2 := closeSnapshot k.1
      if found then (st2, 0, [Line.statusLine allSusp], k.2.1)
      else (st2, 1, [Line.noThreadsFound pid], k.2.1)

/-- Decimal digit accumulation as `_atoi64` performs it: consume digits,
stop at the first non-digit. -/
def digitsVal : List Char → Nat → Nat
  | [], acc => acc
  | c :: cs, acc => if c.isDigit then digitsVal cs (acc * 10 + (c.toNat - 48)) else acc

/-- Whitespace skipped by `_atoi64` before the number. -/
def isSpaceChar (c : Char) : Bool :=
  c = ' ' || c = '\t' || c = '\n' || c = '\r'

/-- `_atoi64`: skip leading whitespace, read an optional sign, then decimal
digits up to the first non-digit. -/
def atoi64 (s : String) : Int :=
  match s.data.dropWhile isSpaceChar with
  | '-' :: rest => - (digitsVal rest 0 : Int)
  | '+' :: rest => (digitsVal rest 0 : Int)
  | rest => (digitsVal rest 0 : Int)

/-- The C++ conversion of the (signed 64-bit) parse result to the `DWORD`
variable `pid`: reduction modulo 2^32. -/
def toDWORD (v : Int) : Nat := (v % (2 ^ 32 : Int)).toNat

/-- `main`: `args` is `argv` without the program name.  Exactly two
arguments and a recognized verb dispatch to `apply`/`status`; anything
else prints the usage message and exits 1. -/
def mainEntry (st : OS) (args : List String) : OS × Nat × List Line × List Event :=
  match args with
  | [verb, pidStr] =>
    if verb = "suspend" then apply st (toDWORD (atoi64 pidStr)) true
    else if verb = "resume" then apply st (toDWORD (atoi64 pidStr)) false
    else if verb = "status" then status st (toDWORD (atoi64 pidStr))
    else (st, 1, [Line.usageLine], [])
  | _ => (st, 1, [Line.usageLine], [])

/-- Threads of the target process, in snapshot (= list) order. -/
def matchingThreads (st : OS) (pid : Nat) : List Thread :=
  st.threads.filter (fun t => t.owner == pid)

/-- The probe records (`tid`, previous count) among a trace. -/
def probesOf (evs : List Event) : List (Nat × Nat) :=
  evs.filterMap (fun e =>
    match e with
    | Event.probed tid c => some (tid, c)
    | _ => none)

/-- Expected probe list over the matching threads: every thread up to and
including the first one with suspend count 0. -/
def probeList : List Thread → List (Nat × Nat)
  | [] => []
  | t :: ts =>
    if t.suspendCount = 0 then [(t.tid, 0)] else (t.tid, t.suspendCount) :: probeList ts

/-- Expected event trace over the matching threads. -/
def evsSpec : List Thread → List Event
  | [] => []
  | t :: ts =>
    Event.openedThread t.tid :: Event.probed t.tid t.suspendCount :: Event.resumed t.tid ::
      (if t.suspendCount = 0 then [] else evsSpec ts)

/-- Expected loop result over the matching threads. -/
def loopDoneSpec : Bool → List Thread → LoopResult
  | found, [] => LoopResult.done found true
  | _, t :: ts => if t.suspendCount = 0 then LoopResult.done true false else loopDoneSpec true ts

/-- `true` iff no thread in the list has suspend count 0. -/
def allSuspendedSpec : List Thread → Bool
  | [] => true
  | t :: ts => if t.suspendCount = 0 then false else allSuspendedSpec ts

/-- The snapshot entry describing a thread. -/
def entryOf (t : Thread) : ThreadEntry := ⟨t.tid, t.owner⟩

/-- `true` exactly on the `ResumeThread`-failure diagnostic. -/
def isResumeFailLine : Line → Bool
  | Line.resumeThreadFailed _ => true
  | _ => false

/-- Concrete nominal state: process 1 with two running threads, process 2
with one deeply suspended thread. -/
def baseSt : OS :=
  { threads := [⟨10, 1, 0⟩, ⟨11, 1, 0⟩, ⟨12, 2, 5⟩], procs := [1, 2],
    openThreadFails := [], suspendFails := [], resumeFails := [], snapshotFails := false,
    getProcFails := false, openHandles := 0 }

/-- Concrete state in which `ResumeThread` fails on thread 10. -/
def resumeFailSt : OS := { baseSt with resumeFails := [10] }

/-- Concrete state with no processes and no threads. -/
def emptySt : OS :=
  { threads := [], procs := [], openThreadFails := [], suspendFails := [], resumeFails := [],
    snapshotFails := false, getProcFails := false, openHandles := 0 }

/-! ### Basic lemmas about the thread-list primitives -/

theorem findThread_of_nodup (l : List Thread) (hnd : (l.map Thread.tid).Nodup)
    (t : Thread) (ht : t ∈ l) : findThread l t.tid = some t := by
  induction l with
  | nil => cases ht
  | cons u us ih =>
    rcases List.mem_cons.mp ht with h | h
    · subst h
      simp [findThread, List.find?]
    · have hne : u.tid ≠ t.tid := by
        intro he
        exact (List.nodup_cons.mp hnd).1 (he ▸ List.mem_map_of_mem Thread.tid h)
      simp only [findThread, List.find?] at *
      rw [show (u.tid == t.tid) = false from beq_eq_false_iff_ne.mpr hne]
      exact ih (List.nodup_cons.mp hnd).2 h

theorem updateThread_updateThread (l : List Thread) (tid : Nat) (f g : Nat → Nat) :
    updateThread (updateThread l tid f) tid g = updateThread l tid (fun c => g (f c)) := by
  induction l with
  | nil => rfl
  | cons t ts ih =>
    by_cases h : t.tid = tid
    · simp [updateThread, h]
    · simp [updateThread, h, ih]

theorem updateThread_id (l : List Thread) (tid : Nat) (f : Nat → Nat)
    (hf : ∀ c, f c = c) : updateThread l tid f = l := by
  induction l with
  | nil => rfl
  | cons t ts ih =>
    by_cases h : t.tid = tid
    · have hc : f t.suspendCount = t.suspendCount := hf _
      simp only [updateThread, if_pos h, hc]
    · simp [updateThread, h, ih]

theorem findThread_updateThread_self (l : List Thread) (tid : Nat) (f : Nat → Nat) :
    findThread (updateThread l tid f) tid
      = (findThread l tid).map (fun t => { t with suspendCount := f t.suspendCount }) := by
  induction l with
  | nil => rfl
  | cons t ts ih =>
    by_cases h : t.tid = tid
    · simp [updateThread, h, findThread, List.find?]
    · have hb : (t.tid == tid) = false := beq_eq_false_iff_ne.mpr h
      simp only [updateThread, if_neg h, findThread, List.find?, hb]
      exact ih

theorem findThread_updateThread_ne (l : List Thread) (tid x : Nat) (f : Nat → Nat)
    (hx : x ≠ tid) : findThread (updateThread l tid f) x = findThread l x := by
  induction l with
  | nil => rfl
  | cons t ts ih =>
    by_cases h : t.tid = tid
    · have hb : (tid == x) = false := beq_eq_false_iff_ne.mpr (fun he => hx he.symm)
      simp [updateThread, h, findThread, List.find?, hb]
    · simp only [updateThread, if_neg h, findThread, List.find?]
      cases hbx : (t.tid == x) with
      | true => rfl
      | false => exact ih

theorem updateThread_shape (l : List Thread) (tid : Nat) (f : Nat → Nat) :
    (updateThread l tid f).map (fun t => (t.tid, t.owner)) = l.map (fun t => (t.tid, t.owner)) := by
  induction l with
  | nil => rfl
  | cons t ts ih =>
    by_cases h : t.tid = tid
    · simp [updateThread, h]
    · simp [updateThread, h, ih]

/-! ### The loop simulation lemma (nominal regime) -/

theorem statusLoop_no_match (pid : Nat) :
    ∀ (es : List ThreadEntry) (st : OS) (found : Bool),
      (∀ e ∈ es, e.th32OwnerProcessID ≠ pid) →
      statusLoop pid st es found = (st, [], LoopResult.done found true) := by
  intro es
  induction es with
  | nil => intro st found _; rfl
  | cons e rest ih =>
    intro st found h
    have he : e.th32OwnerProcessID ≠ pid := h e (List.mem_cons_self e rest)
    simp only [statusLoop, if_neg he]
    exact ih st found (fun u hu => h u (List.mem_cons_of_mem e hu))

theorem statusLoop_sim (pid : Nat) (st : OS) (hnf : st.noFail)
    (hnd : (st.threads.map Thread.tid).Nodup) :
    ∀ (ts : List Thread) (found : Bool), (∀ t ∈ ts, t ∈ st.threads) →
      statusLoop pid st (ts.map entryOf) found
        = (st, evsSpec (ts.filter (fun t => t.owner == pid)),
           loopDoneSpec found (ts.filter (fun t => t.owner == pid))) := by
  intro ts
  induction ts with
  | nil => intro found _; rfl
  | cons t ts ih =>
    intro found hsub
    have hts : t ∈ st.threads := hsub t (List.mem_cons_self t ts)
    have hsub' : ∀ u ∈ ts, u ∈ st.threads := fun u hu => hsub u (List.mem_cons_of_mem t hu)
    by_cases how : t.owner = pid
    · have hfind : findThread st.threads t.tid = some t := findThread_of_nodup _ hnd _ hts
      have hopen : openThread st t.tid = ({ st with openHandles := st.openHandles + 1 }, true) := by
        simp [openThread, hfind, hnf.1]
      have hsusp :
          suspendThread { st with openHandles := st.openHandles + 1 } t.tid
            = ({ st with openHandles := st.openHandles + 1,
                         threads := updateThread st.threads t.tid (fun c => c + 1) },
               some t.suspendCount) := by
        simp [suspendThread, hnf.2.1, hfind]
      have hfind2 :
          findThread (updateThread st.threads t.tid (fun c => c + 1)) t.tid
            = some { t with suspendCount := t.suspendCount + 1 } := by
        rw [findThread_updateThread_self, hfind]; rfl
      have hrestore :
          updateThread (updateThread st.threads t.tid (fun c => c + 1)) t.tid (fun c => c - 1)
            = st.threads := by
        rw [updateThread_updateThread]
        exact updateThread_id _ _ _ (fun c => by simp)
      have hres :
          resumeThread
              { st with openHandles := st.openHandles + 1,
                        threads := updateThread st.threads t.tid (fun c => c + 1) } t.tid
            = ({ st with openHandles := st.openHandles + 1,
                         threads := st.threads },
               some (t.suspendCount + 1)) := by
        simp [resumeThread, hnf.2.2, hfind2, hrestore]
      have hclose :
          closeThreadHandle
              { st with openHandles := st.openHandles + 1, threads := st.threads } = st := by
        simp [closeThreadHandle]
      simp only [List.map_cons, statusLoop, entryOf, if_pos how, hopen, hsusp, hres, hclose]
      by_cases hz : t.suspendCount = 0
      · simp [hz, evsSpec, loopDoneSpec, List.filter_cons, how]
      · simp [hz, ih true hsub', evsSpec, loopDoneSpec, List.filter_cons, how]
    · simp only [List.map_cons, statusLoop, entryOf, if_neg how]
      rw [ih found hsub']
      simp [List.filter_cons, beq_eq_false_iff_ne.mpr how]

/-! ### Status at the top level -/

theorem loopDoneSpec_true (l : List Thread) :
    loopDoneSpec true l = LoopResult.done true (allSuspendedSpec l) := by
  induction l with
  | nil => rfl
  | cons t ts ih =>
    by_cases hz : t.suspendCount = 0
    · simp [loopDoneSpec, allSuspendedSpec, hz]
    · simp [loopDoneSpec, allSuspendedSpec, hz, ih]

theorem loopDoneSpec_of_ne_nil (found : Bool) (l : List Thread) (h : l ≠ []) :
    loopDoneSpec found l = LoopResult.done true (allSuspendedSpec l) := by
  cases l with
  | nil => exact absurd rfl h
  | cons t ts =>
    by_cases hz : t.suspendCount = 0
    · simp [loopDoneSpec, allSuspendedSpec, hz]
    · simp [loopDoneSpec, allSuspendedSpec, hz, loopDoneSpec_true]

/-- In the nominal regime (snapshot succeeds, no per-thread OS call fails,
unique thread identifiers), `status` restores the OS state exactly,
exits 0, prints the aggregate verdict, and its trace is the expected
short-circuiting probe trace over the target's threads. -/
theorem status_run (st : OS) (pid : Nat) (hsnap : st.snapshotFails = false)
    (hnf : st.noFail) (hnd : st.wf) (hne : matchingThreads st pid ≠ []) :
    status st pid
      = (st, 0, [Line.statusLine (allSuspendedSpec (matchingThreads st pid))],
         evsSpec (matchingThreads st pid)) := by
  obtain ⟨thr, prs, otf, sf, rf, snf, gpf, oh⟩ := st
  dsimp only at hsnap
  subst hsnap
  have hsim := statusLoop_sim pid ⟨thr, prs, otf, sf, rf, false, gpf, oh + 1⟩ hnf hnd
      thr false (fun t ht => ht)
  simp only [status, createToolhelp32Snapshot, Bool.false_eq_true, if_false]
  rw [show thr.map (fun t => (⟨t.tid, t.owner⟩ : ThreadEntry)) = thr.map entryOf from rfl]
  have hne' : thr.filter (fun t => t.owner == pid) ≠ [] := hne
  rw [hsim, loopDoneSpec_of_ne_nil false _ hne']
  simp [closeSnapshot, matchingThreads]

/-- If the snapshot succeeds but contains no thread owned by `pid`,
`status` makes no OS call beyond the snapshot, restores the state, and
fails with the no-threads diagnostic. -/
theorem status_no_match (st : OS) (pid : Nat) (hsnap : st.snapshotFails = false)
    (hnone : matchingThreads st pid = []) :
    status st pid = (st, 1, [Line.noThreadsFound pid], []) := by
  have hall : ∀ t ∈ st.threads, ¬ (t.owner == pid) = true :=
    List.filter_eq_nil_iff.mp hnone
  obtain ⟨thr, prs, otf, sf, rf, snf, gpf, oh⟩ := st
  dsimp only at hsnap
  subst hsnap
  have hloop := statusLoop_no_match pid (thr.map (fun t => ⟨t.tid, t.owner⟩))
      ⟨thr, prs, otf, sf, rf, false, gpf, oh + 1⟩ false ?_
  · simp only [status, createToolhelp32Snapshot, Bool.false_eq_true, if_false]
    rw [hloop]
    simp [closeSnapshot]
  · intro e he
    rcases List.mem_map.mp he with ⟨t, ht, rfl⟩
    exact fun hq => hall t ht (beq_iff_eq.mpr hq)

/-! ### Shape lemmas for the OS primitives (failure regime included) -/

theorem openThread_true (st : OS) (tid : Nat) (h : (openThread st tid).2 = true) :
    openThread st tid = ({ st with openHandles := st.openHandles + 1 }, true) := by
  by_cases hc : ((findThread st.threads tid).isSome && !(st.openThreadFails.contains tid)) = true
  · simp only [openThread, if_pos hc]
  · simp only [openThread, if_neg hc] at h
    simp at h

theorem openThread_false (st : OS) (tid : Nat) (h : (openThread st tid).2 = false) :
    openThread st tid = (st, false) := by
  by_cases hc : ((findThread st.threads tid).isSome && !(st.openThreadFails.contains tid)) = true
  · simp only [openThread, if_pos hc] at h
    simp at h
  · simp only [openThread, if_neg hc]

theorem suspendThread_none (st : OS) (tid : Nat) (h : (suspendThread st tid).2 = none) :
    suspendThread st tid = (st, none) := by
  by_cases hf : st.suspendFails.contains tid = true
  · simp only [suspendThread, if_pos hf]
  · simp only [suspendThread, if_neg hf] at h ⊢
    cases hft : findThread st.threads tid with
    | none => rfl
    | some t => rw [hft] at h; simp at h

theorem suspendThread_some (st : OS) (tid : Nat) (prev : Nat)
    (h : (suspendThread st tid).2 = some prev) :
    suspendThread st tid
      = ({ st with threads := updateThread st.threads tid (fun c => c + 1) }, some prev) := by
  by_cases hf : st.suspendFails.contains tid = true
  · simp only [suspendThread, if_pos hf] at h
    simp at h
  · simp only [suspendThread, if_neg hf] at h ⊢
    cases hft : findThread st.threads tid with
    | none => rw [hft] at h; simp at h
    | some t =>
      rw [hft] at h
      simp only [Option.some.injEq] at h
      subst h
      rfl

theorem resumeThread_none (st : OS) (tid : Nat) (h : (resumeThread st tid).2 = none) :
    resumeThread st tid = (st, none) := by
  by_cases hf : st.resumeFails.contains tid = true
  · simp only [resumeThread, if_pos hf]
  · simp only [resumeThread, if_neg hf] at h ⊢
    cases hft : findThread st.threads tid with
    | none => rfl
    | some t => rw [hft] at h; simp at h

theorem resumeThread_some (st : OS) (tid : Nat) (prev : Nat)
    (h : (resumeThread st tid).2 = some prev) :
    resumeThread st tid
      = ({ st with threads := updateThread st.threads tid (fun c => c - 1) }, some prev) := by
  by_cases hf : st.resumeFails.contains tid = true
  · simp only [resumeThread, if_pos hf] at h
    simp at h
  · simp only [resumeThread, if_neg hf] at h ⊢
    cases hft : findThread st.threads tid with
    | none => rw [hft] at h; simp at h
    | some t =>
      rw [hft] at h
      simp only [Option.some.injEq] at h
      subst h
      rfl

/-- One suspend followed by one resume on the same thread restores the
thread list exactly. -/
theorem updateThread_bump_restore (l : List Thread) (tid : Nat) :
    updateThread (updateThread l tid (fun c => c + 1)) tid (fun c => c - 1) = l := by
  rw [updateThread_updateThread]
  exact updateThread_id _ _ _ (fun c => by simp)

/-! ### Handle accounting through the loop (all regimes) -/

theorem statusLoop_openHandles (pid : Nat) :
    ∀ (es : List ThreadEntry) (st : OS) (found : Bool),
      (statusLoop pid st es found).1.openHandles
        = (match (statusLoop pid st es found).2.2 with
           | LoopResult.err _ => st.openHandles - 1
           | LoopResult.done _ _ => st.openHandles) := by
  intro es
  induction es with
  | nil => intro st found; rfl
  | cons e rest ih =>
    intro st found
    by_cases how : e.th32OwnerProcessID = pid
    · cases hb : (openThread st e.th32ThreadID).2 with
      | false =>
        have ho : openThread st e.th32ThreadID = (st, false) := openThread_false _ _ hb
        simp [statusLoop, if_pos how, ho, closeSnapshot]
      | true =>
        have ho : openThread st e.th32ThreadID
            = ({ st with openHandles := st.openHandles + 1 }, true) := openThread_true _ _ hb
        cases hs : (suspendThread { st with openHandles := st.openHandles + 1 }
            e.th32ThreadID).2 with
        | none =>
          have hs' : suspendThread { st with openHandles := st.openHandles + 1 } e.th32ThreadID
              = ({ st with openHandles := st.openHandles + 1 }, none) :=
            suspendThread_none _ _ hs
          simp [statusLoop, if_pos how, ho, hs', closeSnapshot, closeThreadHandle]
        | some prev =>
          have hs' : suspendThread { st with openHandles := st.openHandles + 1 } e.th32ThreadID
              = ({ st with openHandles := st.openHandles + 1,
                           threads := updateThread st.threads e.th32ThreadID
                             (fun c => c + 1) },
                 some prev) :=
            suspendThread_some _ _ _ hs
          cases hr : (resumeThread
              { st with openHandles := st.openHandles + 1,
                        threads := updateThread st.threads e.th32ThreadID
                          (fun c => c + 1) }
              e.th32ThreadID).2 with
          | none =>
            have hr' : resumeThread
                  { st with openHandles := st.openHandles + 1,
                            threads := updateThread st.threads e.th32ThreadID
                              (fun c => c + 1) }
                  e.th32ThreadID
                = ({ st with openHandles := st.openHandles + 1,
                             threads := updateThread st.threads e.th32ThreadID
                               (fun c => c + 1) },
                   none) :=
              resumeThread_none _ _ hr
            simp [statusLoop, if_pos how, ho, hs', hr', closeSnapshot, closeThreadHandle]
          | some prev2 =>
            have hr' : resumeThread
                  { st with openHandles := st.openHandles + 1,
                            threads := updateThread st.threads e.th32ThreadID
                              (fun c => c + 1) }
                  e.th32ThreadID
                = ({ st with openHandles := st.openHandles + 1,
                             threads := updateThread
                               (updateThread st.threads e.th32ThreadID (fun c => c + 1))
                               e.th32ThreadID (fun c => c - 1) },
                   some prev2) :=
              resumeThread_some _ _ _ hr
            by_cases hz : prev = 0
            · simp [statusLoop, if_pos how, ho, hs', hr', hz, closeThreadHandle,
                updateThread_bump_restore]
            · have hrec := ih st true
              simp [statusLoop, if_pos how, ho, hs', hr', hz, closeThreadHandle,
                updateThread_bump_restore]
              simpa using hrec
    · simp only [statusLoop, if_neg how]
      exact ih st found

/-! ### State restoration and frame lemmas (all regimes) -/

theorem statusLoop_restore (pid : Nat) :
    ∀ (es : List ThreadEntry) (st : OS) (found : Bool),
      (∀ tid, (statusLoop pid st es found).2.2 ≠ LoopResult.err (Line.resumeThreadFailed tid)) →
      (statusLoop pid st es found).1.threads = st.threads := by
  intro es
  induction es with
  | nil => intro st found _; rfl
  | cons e rest ih =>
    intro st found h
    by_cases how : e.th32OwnerProcessID = pid
    · cases hb : (openThread st e.th32ThreadID).2 with
      | false =>
        have ho : openThread st e.th32ThreadID = (st, false) := openThread_false _ _ hb
        simp [statusLoop, if_pos how, ho, closeSnapshot]
      | true =>
        have ho : openThread st e.th32ThreadID
            = ({ st with openHandles := st.openHandles + 1 }, true) := openThread_true _ _ hb
        cases hs : (suspendThread { st with openHandles := st.openHandles + 1 }
            e.th32ThreadID).2 with
        | none =>
          have hs' : suspendThread { st with openHandles := st.openHandles + 1 } e.th32ThreadID
              = ({ st with openHandles := st.openHandles + 1 }, none) :=
            suspendThread_none _ _ hs
          simp [statusLoop, if_pos how, ho, hs', closeSnapshot, closeThreadHandle]
        | some prev =>
          have hs' : suspendThread { st with openHandles := st.openHandles + 1 } e.th32ThreadID
              = ({ st with openHandles := st.openHandles + 1,
                           threads := updateThread st.threads e.th32ThreadID
                             (fun c => c + 1) },
                 some prev) :=
            suspendThread_some _ _ _ hs
          cases hr : (resumeThread
              { st with openHandles := st.openHandles + 1,
                        threads := updateThread st.threads e.th32ThreadID
                          (fun c => c + 1) }
              e.th32ThreadID).2 with
          | none =>
            exfalso
            refine h e.th32ThreadID ?_
            have hr' : resumeThread
                  { st with openHandles := st.openHandles + 1,
                            threads := updateThread st.threads e.th32ThreadID
                              (fun c => c + 1) }
                  e.th32ThreadID
                = ({ st with openHandles := st.openHandles + 1,
                             threads := updateThread st.threads e.th32ThreadID
                               (fun c => c + 1) },
                   none) :=
              resumeThread_none _ _ hr
            simp [statusLoop, if_pos how, ho, hs', hr']
          | some prev2 =>
            have hr' : resumeThread
                  { st with openHandles := st.openHandles + 1,
                            threads := updateThread st.threads e.th32ThreadID
                              (fun c => c + 1) }
                  e.th32ThreadID
                = ({ st with openHandles := st.openHandles + 1,
                             threads := updateThread
                               (updateThread st.threads e.th32ThreadID (fun c => c + 1))
                               e.th32ThreadID (fun c => c - 1) },
                   some prev2) :=
              resumeThread_some _ _ _ hr
            by_cases hz : prev = 0
            · simp [statusLoop, if_pos how, ho, hs', hr', hz, closeThreadHandle,
                updateThread_bump_restore]
            · have hrec := ih st true
              simp only [statusLoop, if_pos how, ho, hs', hr', if_neg hz, closeThreadHandle,
                updateThread_bump_restore] at h ⊢
              simp only [Nat.add_sub_cancel] at h ⊢
              exact hrec h
    · simp only [statusLoop, if_neg how] at h ⊢
      exact ih st found h

theorem statusLoop_frame (pid : Nat) :
    ∀ (es : List ThreadEntry) (st : OS) (found : Bool),
      ((statusLoop pid st es found).1.threads.map (fun t => (t.tid, t.owner))
          = st.threads.map (fun t => (t.tid, t.owner)))
      ∧ (∀ e ∈ (statusLoop pid st es found).2.1,
            (∀ q, e ≠ Event.openedProcess q)
            ∧ (∀ x, eventTid e = some x →
                 ∃ en ∈ es, en.th32OwnerProcessID = pid ∧ en.th32ThreadID = x))
      ∧ (∀ x, (∀ en ∈ es, en.th32OwnerProcessID = pid → en.th32ThreadID ≠ x) →
            findThread (statusLoop pid st es found).1.threads x = findThread st.threads x) := by
  intro es
  induction es with
  | nil =>
    intro st found
    refine ⟨rfl, ?_, fun x _ => rfl⟩
    intro e he
    simp [statusLoop] at he
  | cons e rest ih =>
    intro st found
    by_cases how : e.th32OwnerProcessID = pid
    · cases hb : (openThread st e.th32ThreadID).2 with
      | false =>
        have ho : openThread st e.th32ThreadID = (st, false) := openThread_false _ _ hb
        refine ⟨?_, ?_, ?_⟩
        · simp [statusLoop, if_pos how, ho, closeSnapshot]
        · intro ev hev
          simp [statusLoop, if_pos how, ho, closeSnapshot] at hev
        · intro x hx
          simp [statusLoop, if_pos how, ho, closeSnapshot]
      | true =>
        have ho : openThread st e.th32ThreadID
            = ({ st with openHandles := st.openHandles + 1 }, true) := openThread_true _ _ hb
        cases hs : (suspendThread { st with openHandles := st.openHandles + 1 }
            e.th32ThreadID).2 with
        | none =>
          have hs' : suspendThread { st with openHandles := st.openHandles + 1 } e.th32ThreadID
              = ({ st with openHandles := st.openHandles + 1 }, none) :=
            suspendThread_none _ _ hs
          refine ⟨?_, ?_, ?_⟩
          · simp [statusLoop, if_pos how, ho, hs', closeSnapshot, closeThreadHandle]
          · intro ev hev
            simp [statusLoop, if_pos how, ho, hs', closeSnapshot, closeThreadHandle] at hev
            subst hev
            exact ⟨fun q => by simp [eventTid],
              fun x hx => ⟨e, List.mem_cons_self e rest, how, by simpa [eventTid] using hx⟩⟩
          · intro x hx
            simp [statusLoop, if_pos how, ho, hs', closeSnapshot, closeThreadHandle]
        | some prev =>
          have hs' : suspendThread { st with openHandles := st.openHandles + 1 } e.th32ThreadID
              = ({ st with openHandles := st.openHandles + 1,
                           threads := updateThread st.threads e.th32ThreadID
                             (fun c => c + 1) },
                 some prev) :=
            suspendThread_some _ _ _ hs
          cases hr : (resumeThread
              { st with openHandles := st.openHandles + 1,
                        threads := updateThread st.threads e.th32ThreadID
                          (fun c => c + 1) }
              e.th32ThreadID).2 with
          | none =>
            have hr' : resumeThread
                  { st with openHandles := st.openHandles + 1,
                            threads := updateThread st.threads e.th32ThreadID
                              (fun c => c + 1) }
                  e.th32ThreadID
                = ({ st with openHandles := st.openHandles + 1,
                             threads := updateThread st.threads e.th32ThreadID
                               (fun c => c + 1) },
                   none) :=
              resumeThread_none _ _ hr
            refine ⟨?_, ?_, ?_⟩
            · simp [statusLoop, if_pos how, ho, hs', hr', closeSnapshot, closeThreadHandle,
                updateThread_shape]
            · intro ev hev
              simp [statusLoop, if_pos how, ho, hs', hr', closeSnapshot,
                closeThreadHandle] at hev
              rcases hev with hev | hev <;> subst hev
              · exact ⟨fun q => by simp [eventTid],
                  fun x hx => ⟨e, List.mem_cons_self e rest, how, by simpa [eventTid] using hx⟩⟩
              · exact ⟨fun q => by simp [eventTid],
                  fun x hx => ⟨e, List.mem_cons_self e rest, how, by simpa [eventTid] using hx⟩⟩
            · intro x hx
              have hex : e.th32ThreadID ≠ x := hx e (List.mem_cons_self e rest) how
              simp [statusLoop, if_pos how, ho, hs', hr', closeSnapshot, closeThreadHandle,
                findThread_updateThread_ne st.threads e.th32ThreadID x _ hex.symm]
          | some prev2 =>
            have hr' : resumeThread
                  { st with openHandles := st.openHandles + 1,
                            threads := updateThread st.threads e.th32ThreadID
                              (fun c => c + 1) }
                  e.th32ThreadID
                = ({ st with openHandles := st.openHandles + 1,
                             threads := updateThread
                               (updateThread st.threads e.th32ThreadID (fun c => c + 1))
                               e.th32ThreadID (fun c => c - 1) },
                   some prev2) :=
              resumeThread_some _ _ _ hr
            by_cases hz : prev = 0
            · refine ⟨?_, ?_, ?_⟩
              · simp [statusLoop, if_pos how, ho, hs', hr', hz, closeThreadHandle,
                  updateThread_bump_restore]
              · intro ev hev
                simp [statusLoop, if_pos how, ho, hs', hr', hz, closeThreadHandle] at hev
                rcases hev with hev | hev | hev <;> subst hev <;>
                  exact ⟨fun q => by simp [eventTid],
                    fun x hx => ⟨e, List.mem_cons_self e rest, how, by simpa [eventTid] using hx⟩⟩
              · intro x hx
                simp [statusLoop, if_pos how, ho, hs', hr', hz, closeThreadHandle,
                  updateThread_bump_restore]
            · have hrec := ih st true
              refine ⟨?_, ?_, ?_⟩
              · simp [statusLoop, if_pos how, ho, hs', hr', hz, closeThreadHandle,
                  updateThread_bump_restore]
                simpa using hrec.1
              · intro ev hev
                simp [statusLoop, if_pos how, ho, hs', hr', hz, closeThreadHandle,
                  updateThread_bump_restore] at hev
                rcases hev with hev | hev | hev | hev
                · subst hev
                  exact ⟨fun q => by simp [eventTid],
                    fun x hx => ⟨e, List.mem_cons_self e rest, how, by simpa [eventTid] using hx⟩⟩
                · subst hev
                  exact ⟨fun q => by simp [eventTid],
                    fun x hx => ⟨e, List.mem_cons_self e rest, how, by simpa [eventTid] using hx⟩⟩
                · subst hev
                  exact ⟨fun q => by simp [eventTid],
                    fun x hx => ⟨e, List.mem_cons_self e rest, how, by simpa [eventTid] using hx⟩⟩
                · rcases (hrec.2.1 ev (by simpa using hev)) with ⟨hnp, htid⟩
                  refine ⟨hnp, fun x hx => ?_⟩
                  rcases htid x hx with ⟨en, hen, h1, h2⟩
                  exact ⟨en, List.mem_cons_of_mem e hen, h1, h2⟩
              · intro x hx
                have hrec3 := hrec.2.2 x (fun en hen h1 =>
                  hx en (List.mem_cons_of_mem e hen) h1)
                simp only [statusLoop, if_pos how, ho, hs', hr', if_neg hz, closeThreadHandle,
                  updateThread_bump_restore]
                simp only [Nat.add_sub_cancel]
                simpa using hrec3
    · have hrest := ih st found
      refine ⟨?_, ?_, ?_⟩
      · simpa [statusLoop, if_neg how] using hrest.1
      · intro ev hev
        simp only [statusLoop, if_neg how] at hev
        rcases hrest.2.1 ev hev with ⟨hnp, htid⟩
        refine ⟨hnp, fun x hx => ?_⟩
        rcases htid x hx with ⟨en, hen, h1, h2⟩
        exact ⟨en, List.mem_cons_of_mem e hen, h1, h2⟩
      · intro x hx
        have h3 := hrest.2.2 x (fun en hen h1 => hx en (List.mem_cons_of_mem e hen) h1)
        simpa [statusLoop, if_neg how] using h3

/-! ### The freeze controller at the top level -/

theorem apply_suspend_ok (st : OS) (pid : Nat) (hgp : st.getProcFails = false)
    (hp : st.procs.contains pid = true) :
    apply st pid true
      = ({ st with threads := st.threads.map (freezeBump pid) },
         0, [], [Event.openedProcess pid, Event.invokedFreeze true]) := by
  obtain ⟨thr, prs, otf, sf, rf, snf, gpf, oh⟩ := st
  dsimp only at hgp hp
  subst hgp
  have hp' : pid ∈ prs := by simpa using hp
  simp [apply, openProcess, hp, hp', ntSuspendProcess, closeHandle]

theorem apply_resume_ok (st : OS) (pid : Nat) (hgp : st.getProcFails = false)
    (hp : st.procs.contains pid = true) :
    apply st pid false
      = ({ st with threads := st.threads.map (freezeDrop pid) },
         0, [], [Event.openedProcess pid, Event.invokedFreeze false]) := by
  obtain ⟨thr, prs, otf, sf, rf, snf, gpf, oh⟩ := st
  dsimp only at hgp hp
  subst hgp
  have hp' : pid ∈ prs := by simpa using hp
  simp [apply, openProcess, hp, hp', ntResumeProcess, closeHandle]

/-- A whole-process suspend followed by a whole-process resume restores
every thread's count (counts were not saturated below zero because the
suspend bumped them first). -/
theorem freeze_unfreeze_threads (pid : Nat) (l : List Thread) :
    (l.map (freezeBump pid)).map (freezeDrop pid) = l := by
  induction l with
  | nil => rfl
  | cons t ts ih =>
    obtain ⟨tid, owner, c⟩ := t
    by_cases h : owner = pid
    · subst h
      simp [freezeBump, freezeDrop, ih]
    · simp [freezeBump, freezeDrop, h, ih]

theorem map_tid_bump (pid : Nat) (l : List Thread) :
    (l.map (freezeBump pid)).map Thread.tid = l.map Thread.tid := by
  induction l with
  | nil => rfl
  | cons t ts ih => by_cases h : t.owner = pid <;> simp [freezeBump, h, ih]

theorem filter_owner_bump (pid : Nat) (l : List Thread) :
    (l.map (freezeBump pid)).filter (fun t => t.owner == pid)
      = (l.filter (fun t => t.owner == pid)).map
          (fun t => { t with suspendCount := t.suspendCount + 1 }) := by
  induction l with
  | nil => rfl
  | cons t ts ih =>
    by_cases h : t.owner = pid
    · simp [freezeBump, h, ih, List.filter_cons]
    · simp [freezeBump, h, ih, List.filter_cons]

theorem allSuspendedSpec_bump (l : List Thread) :
    allSuspendedSpec (l.map (fun t => { t with suspendCount := t.suspendCount + 1 })) = true := by
  induction l with
  | nil => rfl
  | cons t ts ih => simp [allSuspendedSpec, ih]

/-! ### Probe traces versus verdicts -/

theorem probesOf_evsSpec (l : List Thread) : probesOf (evsSpec l) = probeList l := by
  induction l with
  | nil => rfl
  | cons t ts ih =>
    by_cases hz : t.suspendCount = 0
    · simp [evsSpec, probeList, probesOf, hz]
    · have hstep : probesOf (Event.openedThread t.tid :: Event.probed t.tid t.suspendCount ::
            Event.resumed t.tid :: evsSpec ts)
          = (t.tid, t.suspendCount) :: probesOf (evsSpec ts) := by
        simp [probesOf]
      simp only [evsSpec, if_neg hz]
      rw [hstep, ih]
      simp [probeList, hz]

theorem allSuspendedSpec_true_iff (l : List Thread) :
    allSuspendedSpec l = true ↔ ∀ p ∈ probeList l, 1 ≤ p.2 := by
  induction l with
  | nil => simp [allSuspendedSpec, probeList]
  | cons t ts ih =>
    by_cases hz : t.suspendCount = 0
    · simp [allSuspendedSpec, probeList, hz]
    · simp [allSuspendedSpec, probeList, hz, ih, Nat.one_le_iff_ne_zero]

theorem allSuspendedSpec_false_iff (l : List Thread) :
    allSuspendedSpec l = false ↔ ∃ p ∈ probeList l, p.2 = 0 := by
  induction l with
  | nil => simp [allSuspendedSpec, probeList]
  | cons t ts ih =>
    by_cases hz : t.suspendCount = 0
    · simp [allSuspendedSpec, probeList, hz]
    · simp [allSuspendedSpec, probeList, hz, ih]

theorem probeList_break (pre : List Thread) (t : Thread) (post : List Thread)
    (hpre : ∀ u ∈ pre, u.suspendCount ≠ 0) (ht : t.suspendCount = 0) :
    probeList (pre ++ t :: post)
      = pre.map (fun u => (u.tid, u.suspendCount)) ++ [(t.tid, 0)] := by
  induction pre with
  | nil => simp [probeList, ht]
  | cons u us ih =>
    have hu : u.suspendCount ≠ 0 := hpre u (List.mem_cons_self u us)
    have ih' := ih (fun v hv => hpre v (List.mem_cons_of_mem u hv))
    simp [probeList, hu, ih']

theorem evsSpec_break_tids (pre : List Thread) (t : Thread) (post : List Thread)
    (hpre : ∀ u ∈ pre, u.suspendCount ≠ 0) (ht : t.suspendCount = 0) :
    ∀ e ∈ evsSpec (pre ++ t :: post), ∃ u ∈ pre ++ [t], eventTid e = some u.tid := by
  induction pre with
  | nil =>
    intro e he
    simp [evsSpec, ht] at he
    rcases he with he | he | he
    · exact ⟨t, by simp, by rw [he]; rfl⟩
    · exact ⟨t, by simp, by rw [he]; rfl⟩
    · exact ⟨t, by simp, by rw [he]; rfl⟩
  | cons u us ih =>
    intro e he
    have hu : u.suspendCount ≠ 0 := hpre u (List.mem_cons_self u us)
    simp only [List.cons_append, evsSpec, if_neg hu, List.mem_cons] at he
    rcases he with he | he | he | he
    · exact ⟨u, by simp, by rw [he]; rfl⟩
    · exact ⟨u, by simp, by rw [he]; rfl⟩
    · exact ⟨u, by simp, by rw [he]; rfl⟩
    · rcases ih (fun v hv => hpre v (List.mem_cons_of_mem u hv)) e he with ⟨v, hv, hev⟩
      refine ⟨v, ?_, hev⟩
      rcases List.mem_append.mp hv with hv | hv
      · exact List.mem_append.mpr (Or.inl (List.mem_cons_of_mem u hv))
      · exact List.mem_append.mpr (Or.inr hv)

/-! ### Top-level resource and frame facts -/

theorem apply_openHandles (st : OS) (pid : Nat) (b : Bool) :
    (apply st pid b).1.openHandles = st.openHandles := by
  obtain ⟨thr, prs, otf, sf, rf, snf, gpf, oh⟩ := st
  cases gpf with
  | true => rfl
  | false =>
    by_cases hp : pid ∈ prs
    · cases b <;>
        simp [apply, openProcess, hp, ntSuspendProcess, ntResumeProcess, closeHandle]
    · cases b <;>
        simp [apply, openProcess, hp, ntSuspendProcess, ntResumeProcess, closeHandle]

theorem status_openHandles (st : OS) (pid : Nat) :
    (status st pid).1.openHandles = st.openHandles := by
  obtain ⟨thr, prs, otf, sf, rf, snf, gpf, oh⟩ := st
  cases snf with
  | true => rfl
  | false =>
    have hloop := statusLoop_openHandles pid (thr.map (fun t => ⟨t.tid, t.owner⟩))
        ⟨thr, prs, otf, sf, rf, false, gpf, oh + 1⟩ false
    simp only [status, createToolhelp32Snapshot, Bool.false_eq_true, if_false]
    cases hk : (statusLoop pid ⟨thr, prs, otf, sf, rf, false, gpf, oh + 1⟩
        (thr.map (fun t => ⟨t.tid, t.owner⟩)) false).2.2 with
    | err l =>
      rw [hk] at hloop
      simp only [hk]
      simpa using hloop
    | done f a =>
      rw [hk] at hloop
      simp only [hk]
      cases f <;> simp [closeSnapshot, hloop]

theorem status_restores_threads (st : OS) (pid : Nat)
    (h : ∀ l ∈ (status st pid).2.2.1, isResumeFailLine l = false) :
    (status st pid).1.threads = st.threads := by
  obtain ⟨thr, prs, otf, sf, rf, snf, gpf, oh⟩ := st
  cases snf with
  | true => rfl
  | false =>
    have hrest := statusLoop_restore pid (thr.map (fun t => ⟨t.tid, t.owner⟩))
        ⟨thr, prs, otf, sf, rf, false, gpf, oh + 1⟩ false
    simp only [status, createToolhelp32Snapshot, Bool.false_eq_true, if_false] at h ⊢
    cases hk : (statusLoop pid ⟨thr, prs, otf, sf, rf, false, gpf, oh + 1⟩
        (thr.map (fun t => ⟨t.tid, t.owner⟩)) false).2.2 with
    | err l =>
      simp only [hk] at h ⊢
      refine hrest (fun tid hcontra => ?_)
      rw [hk] at hcontra
      injection hcontra with hl
      subst hl
      have hbad := h (Line.resumeThreadFailed tid) (by simp)
      simp [isResumeFailLine] at hbad
    | done f a =>
      simp only [hk]
      have hth := hrest (fun tid hcontra => by rw [hk] at hcontra; cases hcontra)
      cases f <;> simpa [closeSnapshot] using hth

theorem status_frame_lemma (st : OS) (pid : Nat) (hnd : st.wf) :
    (∀ q, Event.openedProcess q ∉ (status st pid).2.2.2)
    ∧ (∀ e ∈ (status st pid).2.2.2, ∀ x, eventTid e = some x →
         ∃ t ∈ st.threads, t.tid = x ∧ t.owner = pid)
    ∧ (∀ t ∈ st.threads, t.owner ≠ pid →
         countOf (status st pid).1 t.tid = some t.suspendCount) := by
  obtain ⟨thr, prs, otf, sf, rf, snf, gpf, oh⟩ := st
  have hinj : ∀ u ∈ thr, ∀ v ∈ thr, u.tid = v.tid → u = v :=
    List.inj_on_of_nodup_map hnd
  cases snf with
  | true =>
    refine ⟨?_, ?_, ?_⟩
    · intro q hq
      simp [status, createToolhelp32Snapshot] at hq
    · intro e he
      simp [status, createToolhelp32Snapshot] at he
    · intro t ht hto
      have : findThread thr t.tid = some t := findThread_of_nodup _ hnd _ ht
      simp [status, createToolhelp32Snapshot, countOf, this]
  | false =>
    have hframe := statusLoop_frame pid (thr.map (fun t => ⟨t.tid, t.owner⟩))
        ⟨thr, prs, otf, sf, rf, false, gpf, oh + 1⟩ false
    have hev : ∀ e ∈ (statusLoop pid ⟨thr, prs, otf, sf, rf, false, gpf, oh + 1⟩
          (thr.map (fun t => ⟨t.tid, t.owner⟩)) false).2.1,
        (∀ q, e ≠ Event.openedProcess q)
        ∧ (∀ x, eventTid e = some x → ∃ t ∈ thr, t.tid = x ∧ t.owner = pid) := by
      intro e he
      rcases hframe.2.1 e he with ⟨hnp, htid⟩
      refine ⟨hnp, fun x hx => ?_⟩
      rcases htid x hx with ⟨en, hen, h1, h2⟩
      rcases List.mem_map.mp hen with ⟨t, ht, rfl⟩
      exact ⟨t, ht, h2, h1⟩
    have hcnt : ∀ t ∈ thr, t.owner ≠ pid →
        findThread (statusLoop pid ⟨thr, prs, otf, sf, rf, false, gpf, oh + 1⟩
            (thr.map (fun t => ⟨t.tid, t.owner⟩)) false).1.threads t.tid
          = some t := by
      intro t ht hto
      have hpre : ∀ en ∈ thr.map (fun t => (⟨t.tid, t.owner⟩ : ThreadEntry)),
          en.th32OwnerProcessID = pid → en.th32ThreadID ≠ t.tid := by
        intro en hen h1 h2
        rcases List.mem_map.mp hen with ⟨u, hu, rfl⟩
        exact hto (by rw [← hinj u hu t ht h2] ; exact h1)
      rw [hframe.2.2 t.tid hpre]
      exact findThread_of_nodup _ hnd _ ht
    simp only [status, createToolhelp32Snapshot, Bool.false_eq_true, if_false]
    cases hk : (statusLoop pid ⟨thr, prs, otf, sf, rf, false, gpf, oh + 1⟩
        (thr.map (fun t => ⟨t.tid, t.owner⟩)) false).2.2 with
    | err l =>
      simp only [hk]
      refine ⟨?_, ?_, ?_⟩
      · intro q hq
        exact (hev _ hq).1 q rfl
      · intro e he x hx
        exact (hev e he).2 x hx
      · intro t ht hto
        simpa [countOf] using congrArg (Option.map Thread.suspendCount) (hcnt t ht hto)
    | done f a =>
      simp only [hk]
      cases f with
      | false =>
        refine ⟨?_, ?_, ?_⟩
        · intro q hq
          exact (hev _ hq).1 q rfl
        · intro e he x hx
          exact (hev e he).2 x hx
        · intro t ht hto
          simpa [countOf, closeSnapshot] using
            congrArg (Option.map Thread.suspendCount) (hcnt t ht hto)
      | true =>
        refine ⟨?_, ?_, ?_⟩
        · intro q hq
          exact (hev _ hq).1 q rfl
        · intro e he x hx
          exact (hev e he).2 x hx
        · intro t ht hto
          simpa [countOf, closeSnapshot] using
            congrArg (Option.map Thread.suspendCount) (hcnt t ht hto)

theorem matching_tids_nodup (st : OS) (pid : Nat) (hnd : st.wf) :
    ((matchingThreads st pid).map Thread.tid).Nodup := by
  have hsub : List.Sublist (matchingThreads st pid) st.threads := List.filter_sublist _
  exact List.Nodup.sublist (hsub.map Thread.tid) hnd

theorem tid_ne_of_nodup_break (pre : List Thread) (t : Thread) (post : List Thread)
    (hnd : ((pre ++ t :: post).map Thread.tid).Nodup)
    {v u : Thread} (hv : v ∈ pre ++ [t]) (hu : u ∈ post) : v.tid ≠ u.tid := by
  intro he
  have hsplit : pre ++ t :: post = (pre ++ [t]) ++ post := by simp
  rw [hsplit, List.map_append] at hnd
  rcases List.nodup_append.mp hnd with ⟨_, _, hdisj⟩
  exact hdisj (List.mem_map_of_mem Thread.tid hv)
    (by rw [he]; exact List.mem_map_of_mem Thread.tid hu)

/-! ### The claims -/

/-- Claim C1: whenever the snapshot contains at least one thread owned by
the target (and the OS calls behave nominally), `status` exits 0 and
prints a verdict; it prints `T` iff every thread it probed had a
pre-probe suspend count of at least 1; it prints `R` iff some probed
thread had pre-probe count exactly 0, and in that case the probes are
exactly the matching threads up to and including the first running one —
the matching snapshot entries after it are never opened or probed. -/
theorem status_reports_T_iff_all_probed_suspended (st : OS) (pid : Nat)
    (hsnap : st.snapshotFails = false) (hnf : st.noFail) (hnd : st.wf)
    (hne : matchingThreads st pid ≠ []) :
    (status st pid).2.1 = 0
    ∧ ((status st pid).2.2.1 = [Line.statusLine true]
        ↔ ∀ p ∈ probesOf (status st pid).2.2.2, 1 ≤ p.2)
    ∧ ((status st pid).2.2.1 = [Line.statusLine false]
        ↔ ∃ p ∈ probesOf (status st pid).2.2.2, p.2 = 0)
    ∧ (∀ pre t post, matchingThreads st pid = pre ++ t :: post →
         (∀ u ∈ pre, u.suspendCount ≠ 0) → t.suspendCount = 0 →
         probesOf (status st pid).2.2.2
             = pre.map (fun u => (u.tid, u.suspendCount)) ++ [(t.tid, 0)]
           ∧ ∀ u ∈ post, ∀ e ∈ (status st pid).2.2.2, eventTid e ≠ some u.tid) := by
  have hrun := status_run st pid hsnap hnf hnd hne
  have hndM := matching_tids_nodup st pid hnd
  rw [hrun]
  refine ⟨rfl, ?_, ?_, ?_⟩
  · simp only [probesOf_evsSpec, List.cons.injEq, and_true, Line.statusLine.injEq]
    exact allSuspendedSpec_true_iff _
  · simp only [probesOf_evsSpec, List.cons.injEq, and_true, Line.statusLine.injEq]
    exact allSuspendedSpec_false_iff _
  · intro pre t post hM hpre ht
    constructor
    · rw [probesOf_evsSpec, hM]
      exact probeList_break pre t post hpre ht
    · intro u hu e he hcontra
      rw [hM] at he
      rcases evsSpec_break_tids pre t post hpre ht e he with ⟨v, hv, hev⟩
      rw [hev] at hcontra
      rw [hM] at hndM
      exact tid_ne_of_nodup_break pre t post hndM hv hu (Option.some.inj hcontra)

/-- Witness for C1 at the concrete state `baseSt` with target pid 1 (two
running threads): the probe exits 0 and reports `R`. -/
theorem status_reports_T_iff_witness :
    (status baseSt 1).2.1 = 0
    ∧ (status baseSt 1).2.2.1 = [Line.statusLine false] := by
  have h := status_reports_T_iff_all_probed_suspended baseSt 1 (by decide) (by decide)
      (by decide) (by decide)
  exact ⟨h.1, h.2.2.1.mpr ⟨(10, 0), by decide, rfl⟩⟩

/-- Claim C2 counterexample: when `ResumeThread` fails on thread 10 after
the probe's `SuspendThread` succeeded, `status` exits through the
resume-failure path leaving thread 10's suspend count at 1 instead of its
pre-probe value 0 — the probe is not net-zero on that error exit. -/
theorem status_not_net_zero_on_resume_failure :
    (status resumeFailSt 1).2.2.1 = [Line.resumeThreadFailed 10]
    ∧ countOf resumeFailSt 10 = some 0
    ∧ countOf (status resumeFailSt 1).1 10 = some 1 := by decide

/-- Claim C2 (amended): on every run of `status` that does not exit with a
`ResumeThread`-failure diagnostic — success, short-circuit, and all other
error exits — the whole thread table (hence every touched thread's
suspend count) is exactly what it was before the call. -/
theorem status_net_zero_without_resume_failure (st : OS) (pid : Nat)
    (h : ∀ l ∈ (status st pid).2.2.1, isResumeFailLine l = false) :
    (status st pid).1.threads = st.threads :=
  status_restores_threads st pid h

/-- Witness for the amended C2 at the concrete state `baseSt`. -/
theorem status_net_zero_without_resume_failure_witness :
    (status baseSt 1).1.threads = baseSt.threads :=
  status_net_zero_without_resume_failure baseSt 1 (by decide)

/-- Claim C3: evaluation at a nonexistent pid (5). `OpenProcess` returns
`NULL`, the source's `INVALID_HANDLE_VALUE` check does not fire, and the
freeze primitive IS invoked (event `invokedFreeze`), so what is reported
is the primitive's `STATUS_INVALID_HANDLE` failure, not the process-open
failure; `status` reports `NoThreadsFound` with no OS error decode.  Exit
codes are 1 for all three verbs. -/
theorem nonexistent_pid_diagnostics_eval :
    apply emptySt 5 true
        = (emptySt, 1, [Line.funcError true 5 0xC0000008], [Event.invokedFreeze true])
    ∧ apply emptySt 5 false
        = (emptySt, 1, [Line.funcError false 5 0xC0000008], [Event.invokedFreeze false])
    ∧ Line.failedOpenProcess 5 ∉ (apply emptySt 5 true).2.2.1
    ∧ Event.invokedFreeze true ∈ (apply emptySt 5 true).2.2.2
    ∧ status emptySt 5 = (emptySt, 1, [Line.noThreadsFound 5], []) := by decide

/-- Claim C4 counterexample: the command line pid "4294967296" parses (as
a 64-bit value) to 2^32, but the pid passed to the core operation is its
truncation to a 32-bit `DWORD`, namely 0 — the parsed value is altered
before use. -/
theorem pid_truncation_counterexample :
    atoi64 "4294967296" = 4294967296
    ∧ toDWORD (atoi64 "4294967296") = 0
    ∧ mainEntry emptySt ["status", "4294967296"]
        = (emptySt, 1, [Line.noThreadsFound 0], [])
    ∧ (0 : Int) ≠ 4294967296 := by decide

/-- Claim C4 (amended): the pid handed to the selected core operation is
the base-10 64-bit parse reduced modulo 2^32 (the int64 → DWORD
conversion); values already in [0, 2^32) pass through unchanged. -/
theorem pid_passed_equals_parse_mod_2pow32 (st : OS) (s : String) :
    mainEntry st ["suspend", s] = apply st (toDWORD (atoi64 s)) true
    ∧ mainEntry st ["resume", s] = apply st (toDWORD (atoi64 s)) false
    ∧ mainEntry st ["status", s] = status st (toDWORD (atoi64 s))
    ∧ ((toDWORD (atoi64 s) : Int) % 2 ^ 32 = atoi64 s % 2 ^ 32)
    ∧ (0 ≤ atoi64 s → atoi64 s < 2 ^ 32 → (toDWORD (atoi64 s) : Int) = atoi64 s) := by
  refine ⟨rfl, rfl, rfl, ?_, ?_⟩
  · unfold toDWORD
    rw [Int.toNat_of_nonneg (Int.emod_nonneg _ (by norm_num))]
    exact Int.emod_emod_of_dvd _ dvd_rfl
  · intro h0 hlt
    unfold toDWORD
    rw [Int.toNat_of_nonneg (Int.emod_nonneg _ (by norm_num))]
    exact Int.emod_eq_of_lt h0 hlt

/-- Witness for the amended C4 at the literal pid string "7". -/
theorem pid_passed_witness :
    mainEntry emptySt ["status", "7"] = status emptySt (toDWORD (atoi64 "7"))
    ∧ (toDWORD (atoi64 "7") : Int) = atoi64 "7" := by
  have h := pid_passed_equals_parse_mod_2pow32 emptySt "7"
  exact ⟨h.2.2.1, h.2.2.2.2 (by decide) (by decide)⟩

/-- Claim C5: if the snapshot succeeds and contains no thread owned by
the target, `status` exits 1 with the `NoThreadsFound` diagnostic and
never prints a `T`/`R` verdict line. -/
theorem status_no_threads_diagnostic (st : OS) (pid : Nat)
    (hsnap : st.snapshotFails = false) (hnone : matchingThreads st pid = []) :
    (status st pid).2.1 = 1
    ∧ (status st pid).2.2.1 = [Line.noThreadsFound pid]
    ∧ ∀ b, Line.statusLine b ∉ (status st pid).2.2.1 := by
  rw [status_no_match st pid hsnap hnone]
  refine ⟨rfl, rfl, ?_⟩
  intro b hb
  simp at hb

/-- Witness for C5 at the concrete state `baseSt` with pid 3 (no such
process). -/
theorem status_no_threads_witness :
    (status baseSt 3).2.1 = 1 ∧ (status baseSt 3).2.2.1 = [Line.noThreadsFound 3] := by
  have h := status_no_threads_diagnostic baseSt 3 (by decide) (by decide)
  exact ⟨h.1, h.2.1⟩

/-- Claim C6: with an argument count other than two, or an unrecognized
verb, `main` prints the usage message and exits 1 with the OS state
untouched (no handle opened) and no OS event performed. -/
theorem bad_usage_prints_usage_no_core_op (st : OS) (args : List String)
    (h : args.length ≠ 2 ∨ ∀ a b, args = [a, b] →
          a ≠ "suspend" ∧ a ≠ "resume" ∧ a ≠ "status") :
    mainEntry st args = (st, 1, [Line.usageLine], []) := by
  cases args with
  | nil => rfl
  | cons a rest =>
    cases rest with
    | nil => rfl
    | cons b rest2 =>
      cases rest2 with
      | cons c rest3 => rfl
      | nil =>
        rcases h with h | h
        · simp at h
        · obtain ⟨h1, h2, h3⟩ := h a b rfl
          simp [mainEntry, h1, h2, h3]

/-- Witness for C6 at a concrete unrecognized verb. -/
theorem bad_usage_witness :
    mainEntry baseSt ["frobnicate", "7"] = (baseSt, 1, [Line.usageLine], []) :=
  bad_usage_prints_usage_no_core_op baseSt ["frobnicate", "7"]
    (Or.inr (fun a b hab => by
      injection hab with ha hb
      subst ha
      exact ⟨by decide, by decide, by decide⟩))

/-- Claim C7: on a fully running target (all suspend counts 0) in the
nominal regime, `suspend` then `resume` then `status` all succeed and the
final verdict is `R`. -/
theorem suspend_resume_status_yields_R (st : OS) (pid : Nat)
    (hsnap : st.snapshotFails = false) (hnf : st.noFail) (hnd : st.wf)
    (hgp : st.getProcFails = false) (hp : st.procs.contains pid = true)
    (hne : matchingThreads st pid ≠ [])
    (hrun : ∀ t ∈ matchingThreads st pid, t.suspendCount = 0) :
    (apply st pid true).2.1 = 0
    ∧ (apply (apply st pid true).1 pid false).2.1 = 0
    ∧ (status (apply (apply st pid true).1 pid false).1 pid).2.1 = 0
    ∧ (status (apply (apply st pid true).1 pid false).1 pid).2.2.1
        = [Line.statusLine false] := by
  have hfalse : allSuspendedSpec (matchingThreads st pid) = false := by
    cases hM : matchingThreads st pid with
    | nil => exact absurd hM hne
    | cons m ms =>
      have hm0 := hrun m (hM ▸ List.mem_cons_self m ms)
      simp [allSuspendedSpec, hm0]
  rw [apply_suspend_ok st pid hgp hp]
  rw [apply_resume_ok { st with threads := st.threads.map (freezeBump pid) } pid hgp hp]
  dsimp only
  have hst2 :
      ({ st with threads := (st.threads.map (freezeBump pid)).map (freezeDrop pid) } : OS)
        = st := by
    rw [freeze_unfreeze_threads]
  rw [hst2, status_run st pid hsnap hnf hnd hne, hfalse]
  exact ⟨rfl, rfl, rfl, rfl⟩

/-- Witness for C7 at the concrete state `baseSt` with pid 1. -/
theorem suspend_resume_status_witness :
    (status (apply (apply baseSt 1 true).1 1 false).1 1).2.2.1
      = [Line.statusLine false] := by
  have h := suspend_resume_status_yields_R baseSt 1 (by decide) (by decide) (by decide)
      (by decide) (by decide) (by decide) (by decide)
  exact h.2.2.2

/-- Claim C8: on a fully running target in the nominal regime, a
successful `suspend` bumps every matching thread's count to at least 1,
so the following `status` probes every matching thread and reports `T`. -/
theorem suspend_status_yields_T (st : OS) (pid : Nat)
    (hsnap : st.snapshotFails = false) (hnf : st.noFail) (hnd : st.wf)
    (hgp : st.getProcFails = false) (hp : st.procs.contains pid = true)
    (hne : matchingThreads st pid ≠ [])
    (hrun : ∀ t ∈ matchingThreads st pid, t.suspendCount = 0) :
    (apply st pid true).2.1 = 0
    ∧ (status (apply st pid true).1 pid).2.1 = 0
    ∧ (status (apply st pid true).1 pid).2.2.1 = [Line.statusLine true] := by
  rw [apply_suspend_ok st pid hgp hp]
  have hnd1 : ({ st with threads := st.threads.map (freezeBump pid) } : OS).wf := by
    show ((st.threads.map (freezeBump pid)).map Thread.tid).Nodup
    rw [map_tid_bump]
    exact hnd
  have hm1 : matchingThreads { st with threads := st.threads.map (freezeBump pid) } pid
      = (matchingThreads st pid).map (fun t => { t with suspendCount := t.suspendCount + 1 }) :=
    filter_owner_bump pid st.threads
  have hne1 : matchingThreads { st with threads := st.threads.map (freezeBump pid) } pid
      ≠ [] := by
    rw [hm1]
    simpa using hne
  rw [status_run { st with threads := st.threads.map (freezeBump pid) } pid hsnap hnf hnd1 hne1,
    hm1, allSuspendedSpec_bump]
  exact ⟨rfl, rfl, rfl⟩

/-- Witness for C8 at the concrete state `baseSt` with pid 1. -/
theorem suspend_status_witness :
    (status (apply baseSt 1 true).1 1).2.2.1 = [Line.statusLine true] := by
  have h := suspend_status_yields_T baseSt 1 (by decide) (by decide) (by decide)
      (by decide) (by decide) (by decide) (by decide)
  exact h.2.2

/-- Claim C9: both operations leave the number of open OS handles exactly
as they found it, on every exit path — success, short-circuit, and every
early-return failure. -/
theorem handles_released_on_all_paths (st : OS) (pid : Nat) (b : Bool) :
    (apply st pid b).1.openHandles = st.openHandles
    ∧ (status st pid).1.openHandles = st.openHandles :=
  ⟨apply_openHandles st pid b, status_openHandles st pid⟩

/-- Claim C10: `status` never opens a process handle; every thread event
in its trace names a thread owned by the target; and every thread of a
different owner keeps its suspend count. -/
theorem status_touches_only_target_threads (st : OS) (pid : Nat) (hnd : st.wf) :
    (∀ q, Event.openedProcess q ∉ (status st pid).2.2.2)
    ∧ (∀ e ∈ (status st pid).2.2.2, ∀ x, eventTid e = some x →
         ∃ t ∈ st.threads, t.tid = x ∧ t.owner = pid)
    ∧ (∀ t ∈ st.threads, t.owner ≠ pid →
         countOf (status st pid).1 t.tid = some t.suspendCount) :=
  status_frame_lemma st pid hnd

/-- Witness for C10 at `baseSt`: thread 12 (owned by process 2) keeps its
suspend count 5 across `status` on pid 1. -/
theorem status_touches_only_target_witness :
    countOf (status baseSt 1).1 12 = some 5 :=
  (status_touches_only_target_threads baseSt 1 (by decide)).2.2
    ⟨12, 2, 5⟩ (by decide) (by decide)

end Susres
